import Mathlib

/-!
Shallow embedding of the beads_viewer agent coordination store
(pkg/agent: types.go and store.go).

Modelling conventions:
- Go time.Time instants and time.Duration values are both modelled as Int
  nanosecond counts.  The Go zero time is the instant 0, so t.IsZero()
  becomes t = 0.  time.Since(x) at instant now is now - x.
- Go slices inside AgentRegistration keep the nil / empty distinction that
  the source relies on (Register checks ClaimedWork == nil): a slice is an
  Option (List A), none being the nil slice.  A Go loop that builds a slice
  by conditional append starting from nil produces nil exactly when nothing
  was appended, which goSlice captures.
- The agents map (map[string]*AgentRegistration, keyed by the registration
  name, which the code maintains as the key everywhere) is modelled as a
  list of registrations looked up by name; map iteration order is
  unspecified in Go, the list order stands in for it.
- Each store operation takes the current instant now explicitly; a single
  instant per call stands for the time.Now() calls inside the operation.
- Mutating operations return (Option StoreErr) × Registry: the Go methods
  mutate the receiver in place and return an error, and every early-return
  error path leaves the map as it was at entry.
-/

abbrev Time := Int
abbrev Duration := Int

def Nanosecond : Duration := 1
def Second : Duration := 1000000000 * Nanosecond
def Minute : Duration := 60 * Second
def Hour : Duration := 60 * Minute

/-- DefaultClaimExpiry from types.go: 30 minutes. -/
def DefaultClaimExpiry : Duration := 30 * Minute

/-- DefaultInactivityThreshold from types.go: 30 minutes. -/
def DefaultInactivityThreshold : Duration := 30 * Minute

/-- DefaultStaleThreshold from types.go: 1 hour. -/
def DefaultStaleThreshold : Duration := 1 * Hour

/-- DefaultFileHintExpiry from types.go: 30 minutes. -/
def DefaultFileHintExpiry : Duration := 30 * Minute

/-- AgentStatus is a string in the source; IsValid recognises the four
constants active, idle, inactive, gone. -/
def AgentStatus.IsValid (s : String) : Bool :=
  s == "active" || s == "idle" || s == "inactive" || s == "gone"

/-- ClaimReason is a string in the source; IsValid recognises the five
constants implementing, reviewing, testing, debugging, planning. -/
def ClaimReason.IsValid (r : String) : Bool :=
  r == "implementing" || r == "reviewing" || r == "testing" ||
  r == "debugging" || r == "planning"

/-- Errors the store returns, by the fmt.Errorf sites in the source:
validation errors from Validate, not-found errors naming the missing
thing, and the claim conflict error carrying the bead id and the name of
the holding agent. -/
inductive StoreErr where
  | validation (msg : String)
  | notFound (what : String)
  | conflict (beadID holder : String)
deriving DecidableEq, Repr

/-- WorkClaim from types.go. -/
structure WorkClaim where
  beadID : String
  agent : String
  claimedAt : Time
  expiresAt : Time
  reason : String
  notes : String
deriving DecidableEq, Repr

/-- WorkClaim.IsExpired: now.After(c.ExpiresAt). -/
def WorkClaim.IsExpired (c : WorkClaim) (now : Time) : Bool :=
  now > c.expiresAt

/-- WorkClaim.Validate from types.go. -/
def WorkClaim.Validate (c : WorkClaim) : Option StoreErr :=
  if c.beadID == "" then some (.validation "bead ID cannot be empty")
  else if c.agent == "" then some (.validation "agent name cannot be empty")
  else if c.claimedAt == 0 then some (.validation "claimed_at cannot be zero")
  else if c.expiresAt == 0 then some (.validation "expires_at cannot be zero")
  else if !(ClaimReason.IsValid c.reason) then
    some (.validation "invalid claim reason")
  else none

/-- FileHint from types.go. -/
structure FileHint where
  pattern : String
  agent : String
  beadID : String
  createdAt : Time
  expiresAt : Time
deriving DecidableEq, Repr

/-- FileHint.IsExpired: now.After(f.ExpiresAt). -/
def FileHint.IsExpired (f : FileHint) (now : Time) : Bool :=
  now > f.expiresAt

/-- AgentMeta from types.go. -/
structure AgentMeta where
  version : String
  sessionID : String
  tags : List String
deriving DecidableEq, Repr

/-- AgentRegistration from types.go.  claimedWork and fileHints are Go
slices and keep the nil (none) versus empty (some nil-list) distinction. -/
structure AgentRegistration where
  name : String
  model : String
  program : String
  startedAt : Time
  lastSeen : Time
  claimedWork : Option (List WorkClaim)
  fileHints : Option (List FileHint)
  status : String
  metadata : AgentMeta
deriving DecidableEq, Repr

/-- Reading a possibly nil Go slice: ranging over nil yields no elements. -/
def goElems {A : Type} (o : Option (List A)) : List A := o.getD []

/-- Result of a Go loop that builds a slice by conditional append starting
from a nil slice: nil exactly when nothing was appended. -/
def goSlice {A : Type} (l : List A) : Option (List A) :=
  if l.isEmpty then none else some l

/-- AgentRegistration.Validate from types.go. -/
def AgentRegistration.Validate (a : AgentRegistration) : Option StoreErr :=
  if a.name == "" then some (.validation "agent name cannot be empty")
  else if a.program == "" then some (.validation "agent program cannot be empty")
  else if !(AgentStatus.IsValid a.status) then
    some (.validation "invalid agent status")
  else none

/-- AgentRegistration.IsActive: time.Since(a.LastSeen) < timeout. -/
def AgentRegistration.IsActive (a : AgentRegistration) (now : Time)
    (timeout : Duration) : Bool :=
  now - a.lastSeen < timeout

/-- AgentRegistration.IsStale: time.Since(a.LastSeen) > threshold. -/
def AgentRegistration.IsStale (a : AgentRegistration) (now : Time)
    (threshold : Duration) : Bool :=
  now - a.lastSeen > threshold

/-- AgentRegistration.HasClaim from types.go. -/
def AgentRegistration.HasClaim (a : AgentRegistration) (beadID : String) : Bool :=
  (goElems a.claimedWork).any (fun c => c.beadID == beadID)

/-- AgentRegistration.ActiveClaims from types.go: the claims that have not
expired. -/
def AgentRegistration.ActiveClaims (a : AgentRegistration) (now : Time) :
    List WorkClaim :=
  (goElems a.claimedWork).filter (fun c => !(c.IsExpired now))

/-- The agents map of the store, as a list of registrations keyed by name. -/
abbrev Registry := List AgentRegistration

/-- Map lookup s.agents[name]. -/
def Registry.get? (r : Registry) (n : String) : Option AgentRegistration :=
  r.find? (fun a => a.name == n)

/-- Map membership test. -/
def Registry.contains (r : Registry) (n : String) : Bool :=
  (r.get? n).isSome

/-- Map store s.agents[a.Name] = a: replaces the binding of that name when
present, otherwise adds a new one. -/
def Registry.put : Registry → AgentRegistration → Registry
  | [], a => [a]
  | x :: rest, a =>
    if x.name == a.name then a :: rest else x :: Registry.put rest a

/-- In-place mutation of the registration the name binds (the Go code
writes through the pointer stored in the map). -/
def Registry.update : Registry → String →
    (AgentRegistration → AgentRegistration) → Registry
  | [], _, _ => []
  | x :: rest, n, f =>
    if x.name == n then f x :: rest else x :: Registry.update rest n f

/-- Names of all registered agents, a map keyed by name has each at most
once. -/
def Registry.WF (r : Registry) : Prop :=
  (r.map (fun a => a.name)).Nodup

instance (r : Registry) : Decidable (Registry.WF r) :=
  inferInstanceAs (Decidable ((r.map (fun (a : AgentRegistration) => a.name)).Nodup))

/-- Store.Register from store.go: validate; for an existing agent of the
same name keep its original StartedAt and, when the incoming record has a
nil ClaimedWork (resp. FileHints) slice, carry the existing one forward;
set LastSeen to now; upsert under the name. -/
def register (now : Time) (agent : AgentRegistration) (r : Registry) :
    Option StoreErr × Registry :=
  match agent.Validate with
  | some e => (some e, r)
  | none =>
    let agent1 :=
      match r.get? agent.name with
      | some existing =>
        { agent with
          startedAt := existing.startedAt
          claimedWork := if agent.claimedWork = none then existing.claimedWork
                         else agent.claimedWork
          fileHints := if agent.fileHints = none then existing.fileHints
                       else agent.fileHints }
      | none => agent
    (none, r.put { agent1 with lastSeen := now })

/-- Store.Unregister from store.go. -/
def unregister (name : String) (r : Registry) : Option StoreErr × Registry :=
  if r.contains name then (none, r.filter (fun a => !(a.name == name)))
  else (some (.notFound name), r)

/-- Store.Get from store.go: returns the registration of that name (the Go
code hands back a struct copy). -/
def get (r : Registry) (n : String) : Option AgentRegistration :=
  r.get? n

/-- Store.List from store.go: all registrations. -/
def list (r : Registry) : List AgentRegistration := r

/-- Store.ActiveAgents from store.go. -/
def activeAgents (now : Time) (timeout : Duration) (r : Registry) :
    List AgentRegistration :=
  r.filter (fun a => a.IsActive now timeout)

/-- The in-place mutation Store.Heartbeat performs on the found record. -/
def heartbeatF (now : Time) (a : AgentRegistration) : AgentRegistration :=
  { a with lastSeen := now, status := "active" }

/-- Store.Heartbeat from store.go. -/
def heartbeat (now : Time) (name : String) (r : Registry) :
    Option StoreErr × Registry :=
  if r.contains name then (none, r.update name (heartbeatF now))
  else (some (.notFound name), r)

/-- The conflict check inside Store.Claim, for one other registration:
it is a different agent and holds an unexpired claim on the same bead. -/
def conflictScan (now : Time) (agentName : String) (c : WorkClaim)
    (other : AgentRegistration) : Bool :=
  !(other.name == agentName) &&
    (goElems other.claimedWork).any (fun ec =>
      ec.beadID == c.beadID && !(ec.IsExpired now))

/-- The in-place mutation Store.Claim performs on the claiming agent:
drop its own claims on the bead, append the new claim, stamp LastSeen. -/
def claimF (now : Time) (c : WorkClaim) (a : AgentRegistration) :
    AgentRegistration :=
  { a with
    claimedWork := some ((goElems a.claimedWork).filter
      (fun x => !(x.beadID == c.beadID)) ++ [c])
    lastSeen := now }

/-- Store.Claim from store.go: validate the claim; not-found when the agent
is unregistered; scan every other agent for an unexpired claim on the same
bead id and fail with the conflict error naming that holder; otherwise drop
the claiming agent's own claims on that id, append the new claim and set
LastSeen to now. -/
def claimOp (now : Time) (agentName : String) (c : WorkClaim) (r : Registry) :
    Option StoreErr × Registry :=
  match c.Validate with
  | some e => (some e, r)
  | none =>
    if !(r.contains agentName) then (some (.notFound agentName), r)
    else
      match r.find? (conflictScan now agentName c) with
      | some other => (some (.conflict c.beadID other.name), r)
      | none => (none, r.update agentName (claimF now c))

/-- The in-place mutation Store.Release performs on the agent: remove the
claims on the bead (nil when none are left), stamp LastSeen. -/
def releaseF (now : Time) (beadID : String) (x : AgentRegistration) :
    AgentRegistration :=
  { x with
    claimedWork := goSlice ((goElems x.claimedWork).filter
      (fun c => !(c.beadID == beadID)))
    lastSeen := now }

/-- Store.Release from store.go: not-found when the agent is unregistered
or it has no claim on the bead; otherwise remove the claims on that bead
and set LastSeen to now. -/
def release (now : Time) (agentName beadID : String) (r : Registry) :
    Option StoreErr × Registry :=
  match r.get? agentName with
  | none => (some (.notFound agentName), r)
  | some a =>
    if !((goElems a.claimedWork).any (fun c => c.beadID == beadID)) then
      (some (.notFound beadID), r)
    else (none, r.update agentName (releaseF now beadID))

/-- Store.GetClaimHolder from store.go: the first agent holding an
unexpired claim on the bead (the Go code returns a struct copy). -/
def getClaimHolder (now : Time) (beadID : String) (r : Registry) :
    Option AgentRegistration :=
  r.find? (fun a => (goElems a.claimedWork).any (fun c =>
    c.beadID == beadID && !(c.IsExpired now)))

/-- Store.GetAllClaims from store.go: every unexpired claim of every
agent. -/
def getAllClaims (now : Time) (r : Registry) : List WorkClaim :=
  r.flatMap (fun a => (goElems a.claimedWork).filter (fun c => !(c.IsExpired now)))

/-- The in-place mutation Store.AddFileHint performs on the agent. -/
def addHintF (now : Time) (h : FileHint) (a : AgentRegistration) :
    AgentRegistration :=
  { a with fileHints := some (goElems a.fileHints ++ [h]), lastSeen := now }

/-- Store.AddFileHint from store.go. -/
def addFileHint (now : Time) (agentName : String) (h : FileHint) (r : Registry) :
    Option StoreErr × Registry :=
  if r.contains agentName then (none, r.update agentName (addHintF now h))
  else (some (.notFound agentName), r)

/-- The in-place mutation Store.RemoveFileHint performs on the agent. -/
def removeHintF (now : Time) (pattern : String) (a : AgentRegistration) :
    AgentRegistration :=
  { a with
    fileHints := goSlice ((goElems a.fileHints).filter
      (fun h => !(h.pattern == pattern)))
    lastSeen := now }

/-- Store.RemoveFileHint from store.go: removes the hints with that
pattern; succeeds even when none match, provided the agent exists. -/
def removeFileHint (now : Time) (agentName pattern : String) (r : Registry) :
    Option StoreErr × Registry :=
  if r.contains agentName then (none, r.update agentName (removeHintF now pattern))
  else (some (.notFound agentName), r)

/-- The (pattern, agent name, hint bead id) occurrences GetFileConflicts
accumulates: one per unexpired hint of each agent active within
DefaultInactivityThreshold, in iteration order. -/
def hintEntries (now : Time) (r : Registry) : List (String × String × String) :=
  r.flatMap (fun a =>
    if a.IsActive now DefaultInactivityThreshold then
      ((goElems a.fileHints).filter (fun h => !(h.IsExpired now))).map
        (fun h => (h.pattern, a.name, h.beadID))
    else [])

/-- The fileAgents accumulation of GetFileConflicts for one pattern: the
name of the owning agent is appended once per unexpired hint occurrence. -/
def fileAgents (now : Time) (r : Registry) (pattern : String) : List String :=
  ((hintEntries now r).filter (fun e => e.1 == pattern)).map (fun e => e.2.1)

/-- The fileBeads accumulation of GetFileConflicts for one pattern: bead
ids of the matching hint occurrences, empty ids skipped. -/
def fileBeads (now : Time) (r : Registry) (pattern : String) : List String :=
  (((hintEntries now r).filter (fun e => e.1 == pattern)).map (fun e => e.2.2)).filter
    (fun b => !(b == ""))

/-- FileConflict from types.go (the Resolution field is never set by the
store and is omitted). -/
structure FileConflict where
  file : String
  agents : List String
  beadIDs : List String
deriving DecidableEq, Repr

/-- Store.GetFileConflicts from store.go: one conflict per pattern whose
fileAgents list has more than one entry. -/
def getFileConflicts (now : Time) (r : Registry) : List FileConflict :=
  (((hintEntries now r).map (fun e => e.1)).dedup).filterMap (fun p =>
    let ags := fileAgents now r p
    if ags.length > 1 then some ⟨p, ags, fileBeads now r p⟩ else none)

/-- The per-agent body of Store.CleanupExpired: drop expired claims and
hints, then set status gone when stale past DefaultStaleThreshold, else
inactive when not active within DefaultInactivityThreshold, else leave
it. -/
def cleanupAgent (now : Time) (a : AgentRegistration) : AgentRegistration :=
  { a with
    claimedWork := goSlice ((goElems a.claimedWork).filter
      (fun c => !(c.IsExpired now)))
    fileHints := goSlice ((goElems a.fileHints).filter
      (fun h => !(h.IsExpired now)))
    status :=
      if a.IsStale now DefaultStaleThreshold then "gone"
      else if !(a.IsActive now DefaultInactivityThreshold) then "inactive"
      else a.status }

/-- Store.CleanupExpired from store.go: the sweep over every agent. -/
def cleanupExpired (now : Time) (r : Registry) : Registry :=
  r.map (cleanupAgent now)

/-- One line of the agents.jsonl snapshot as Store.Load sees it: blank
(skipped), a record that json.Unmarshal decodes to a registration, or a
malformed record it rejects. -/
inductive FileLine where
  | blank
  | record (a : AgentRegistration)
  | malformed
deriving DecidableEq, Repr

/-- The scanner loop of Store.Load: lineNum is incremented for every
scanned line, blank lines are skipped, a record is stored in the map under
its name, and a malformed line aborts with its line number (the registry
built so far stays in the store, which the caller must treat as
unusable). -/
def loadLines : List FileLine → Registry → Nat → Registry × Option Nat
  | [], acc, _ => (acc, none)
  | .blank :: rest, acc, n => loadLines rest acc (n + 1)
  | .record a :: rest, acc, n => loadLines rest (acc.put a) (n + 1)
  | .malformed :: _, acc, n => (acc, some n)

/-- Store.Load from store.go: the file is either absent (none, not an
error: the registry stays empty) or a list of lines scanned from line 1;
the second component is the line number of the first malformed record, the
one the returned parse error names, or none on success. -/
def load (file : Option (List FileLine)) : Registry × Option Nat :=
  match file with
  | none => ([], none)
  | some lines => loadLines lines [] 1

/-- Store.Save from store.go at the record level: one line per agent of
the registry in iteration order, each the JSON encoding of the
registration, which json.Unmarshal decodes back to the same record
(encoding/json round-trips every field of AgentRegistration, time stamps
in RFC 3339 nanosecond form and nil slices as null). -/
def save (r : Registry) : List FileLine := r.map .record

/-- A pointer to a registration record, as an index into a heap of
records: Store.Register receives, and Store.Get returns,
*AgentRegistration values. -/
abbrev Ptr := Nat

/-- The heap the registration pointers index. -/
abbrev Heap := List AgentRegistration

/-- Pointer dereference. -/
def heapGet (h : Heap) (p : Ptr) : Option AgentRegistration := h[p]?

/-- Assignment through a pointer. -/
def heapSet (h : Heap) (p : Ptr) (a : AgentRegistration) : Heap := h.set p a

/-- The agents map at the pointer level: name to stored pointer. -/
abbrev PtrRegistry := List (String × Ptr)

/-- Map store s.agents[n] = p at the pointer level. -/
def putPtr (s : PtrRegistry) (n : String) (p : Ptr) : PtrRegistry :=
  if (s.lookup n).isSome then
    s.map (fun e => if e.1 == n then (n, p) else e)
  else s ++ [(n, p)]

/-- Store.Register at the pointer level, line for line from store.go: the
method validates through the caller pointer, writes StartedAt and the
carried-forward slices and LastSeen through that same pointer, and then
stores the pointer itself in the agents map, so the caller and the store
alias one record from then on. -/
def registerPtr (now : Time) (h : Heap) (p : Ptr) (s : PtrRegistry) :
    Option StoreErr × Heap × PtrRegistry :=
  match heapGet h p with
  | none => (some (.validation "invalid pointer"), h, s)
  | some agent =>
    match agent.Validate with
    | some e => (some e, h, s)
    | none =>
      let agent1 :=
        match (s.lookup agent.name).bind (heapGet h) with
        | some existing =>
          { agent with
            startedAt := existing.startedAt
            claimedWork := if agent.claimedWork = none then existing.claimedWork
                           else agent.claimedWork
            fileHints := if agent.fileHints = none then existing.fileHints
                         else agent.fileHints }
        | none => agent
      (none, heapSet h p { agent1 with lastSeen := now }, putPtr s agent.name p)

/-- Store.Get at the pointer level: look up the stored pointer and return
the struct copy it currently points at (copy := *agent). -/
def getPtr (h : Heap) (s : PtrRegistry) (n : String) : Option AgentRegistration :=
  (s.lookup n).bind (heapGet h)

/-- Number of unexpired claims an agent holds on one bead id. -/
def agentClaimsOn (now : Time) (id : String) (a : AgentRegistration) : Nat :=
  (goElems a.claimedWork).countP (fun c => c.beadID == id && !(c.IsExpired now))

/-- Number of unexpired claims on one bead id across the whole registry. -/
def claimsOn (now : Time) (id : String) (r : Registry) : Nat :=
  (r.map (agentClaimsOn now id)).sum

/-- The central invariant of the spec: at most one unexpired claim per
bead id across all claim lists of the registry. -/
def ClaimInvariant (now : Time) (r : Registry) : Prop :=
  ∀ id, claimsOn now id r ≤ 1

/-- Empty metadata, the Go zero value of AgentMeta. -/
def metaZero : AgentMeta := ⟨"", "", []⟩

/-- Registration fixture named a, as NewAgentRegistration builds it at
instant 5: empty non-nil claim and hint slices, status active. -/
def agentA : AgentRegistration :=
  ⟨"a", "model-1", "prog-1", 5, 5, some [], some [], "active", metaZero⟩

/-- Registration fixture named b. -/
def agentB : AgentRegistration :=
  ⟨"b", "model-1", "prog-1", 5, 5, some [], some [], "active", metaZero⟩

/-- Claim fixture on bead x by agent a, expiring at instant 100. -/
def claimXA : WorkClaim := ⟨"x", "a", 10, 100, "implementing", ""⟩

/-- Registration fixture: agent a holding the claim on bead x. -/
def agentWithClaim : AgentRegistration :=
  { agentA with claimedWork := some [claimXA] }

/-- Re-registration fixture for name a whose claim and hint slices are
empty but non-nil, as NewAgentRegistration builds them. -/
def reRegEmpty : AgentRegistration :=
  ⟨"a", "model-2", "prog-1", 9, 9, some [], some [], "active", metaZero⟩

/-- Fixture for the file-conflict scan: one active agent holding two
unexpired hints on the same pattern. -/
def agentTwoHints : AgentRegistration :=
  ⟨"a", "m", "p", 5, 5, none,
    some [⟨"main.go", "a", "bv-1", 5, 100⟩, ⟨"main.go", "a", "bv-2", 5, 100⟩],
    "active", metaZero⟩

/-- Fixture for the pointer model: a valid registration the caller builds
and registers through a pointer. -/
def agentP : AgentRegistration :=
  ⟨"a", "m", "p", 1, 1, none, none, "active", metaZero⟩

/-- The record the caller writes through its retained pointer after
registering agentP: the model field changed behind the store's back. -/
def agentPMut : AgentRegistration :=
  { agentP with lastSeen := 5, model := "changed" }

/-- Fixture for the cleanup boundary: an agent last seen at instant 0 with
status active. -/
def agentBoundary : AgentRegistration :=
  ⟨"o", "m", "p", 0, 0, none, none, "active", metaZero⟩

/-- Registration carrying an unexpired claim on bead x, injected through
Register by agent b2 (Register does not validate claims). -/
def agentInjB : AgentRegistration :=
  ⟨"b2", "m", "p", 1, 1, some [⟨"x", "b2", 1, 1000, "implementing", ""⟩],
    some [], "active", metaZero⟩

/-- A second registration carrying its own unexpired claim on the same
bead x, registered under another name. -/
def agentInjA : AgentRegistration :=
  ⟨"a2", "m", "p", 1, 1, some [⟨"x", "a2", 1, 1000, "implementing", ""⟩],
    some [], "active", metaZero⟩

/-- A standalone hint fixture on pattern main.go. -/
def hintOne : FileHint := ⟨"main.go", "a", "bv-1", 5, 100⟩

/-- Re-registration fixture for name a whose claim and hint slices are
nil, as a record built without touching those fields. -/
def reRegNil : AgentRegistration :=
  ⟨"a", "model-2", "prog-1", 9, 9, none, none, "active", metaZero⟩

/-- Claim fixture on bead y by agent b, expiring at instant 400. -/
def claimYB : WorkClaim := ⟨"y", "b", 10, 400, "implementing", ""⟩

/-- Registry fixture with two agents each holding one unexpired claim on
bead x, reached from the empty registry by two Register calls. -/
def twoHoldersOfX : Registry :=
  (register 1 agentInjA (register 1 agentInjB []).2).2

/-- Helper lemmas about the registry model. -/
theorem goElems_goSlice {A : Type} (l : List A) : goElems (goSlice l) = l := by
  cases l <;> rfl

theorem get?_cons (x : AgentRegistration) (rest : Registry) (n : String) :
    Registry.get? (x :: rest) n =
      if x.name == n then some x else Registry.get? rest n := by
  unfold Registry.get?
  rw [List.find?_cons]
  cases h : x.name == n <;> simp [h]

theorem get?_put (r : Registry) (a : AgentRegistration) (m : String) :
    (r.put a).get? m = if a.name = m then some a else r.get? m := by
  induction r with
  | nil =>
    by_cases h : a.name = m <;> simp [Registry.put, get?_cons, Registry.get?, h]
  | cons x rest ih =>
    by_cases hx : x.name == a.name
    · have hx' : x.name = a.name := by simpa using hx
      by_cases h : a.name = m <;>
        simp [Registry.put, hx, get?_cons, h, hx', Registry.get?]
    · have hx' : ¬ x.name = a.name := by simpa using hx
      by_cases h : a.name = m
      · subst h
        simp [Registry.put, hx, get?_cons, ih, hx', if_neg hx']
      · simp [Registry.put, hx, get?_cons, ih, h]

theorem get?_update (r : Registry) (n m : String)
    (f : AgentRegistration → AgentRegistration)
    (hf : ∀ a, (f a).name = a.name) :
    (r.update n f).get? m =
      if n = m then (r.get? n).map f else r.get? m := by
  induction r with
  | nil => by_cases h : n = m <;> simp [Registry.update, Registry.get?, h]
  | cons x rest ih =>
    by_cases hx : x.name == n
    · have hx' : x.name = n := by simpa using hx
      by_cases h : n = m
      · subst h
        simp [Registry.update, hx, get?_cons, hf, hx']
      · have : ¬ x.name = m := by rw [hx']; exact h
        simp [Registry.update, hx, get?_cons, hf, hx', h, this]
    · have hx' : ¬ x.name = n := by simpa using hx
      by_cases hm : x.name == m
      · have hm' : x.name = m := by simpa using hm
        have hnm : ¬ n = m := fun hh => hx' (hm' ▸ hh.symm ▸ rfl)
        simp [Registry.update, hx, get?_cons, hm, hnm]
      · simp [Registry.update, hx, get?_cons, hm, ih]

theorem get?_map_of_name (r : Registry)
    (f : AgentRegistration → AgentRegistration)
    (hf : ∀ a, (f a).name = a.name) (m : String) :
    Registry.get? (r.map f) m = (Registry.get? r m).map f := by
  induction r with
  | nil => simp [Registry.get?]
  | cons x rest ih =>
    by_cases hx : x.name == m
    · simp [List.map_cons, get?_cons, hf, hx]
    · simp [List.map_cons, get?_cons, hf, hx, ih]

theorem mem_getAllClaims (now : Time) (c : WorkClaim) (r : Registry) :
    c ∈ getAllClaims now r ↔
      ∃ a ∈ r, c ∈ goElems a.claimedWork ∧ c.IsExpired now = false := by
  simp [getAllClaims, List.mem_flatMap, List.mem_filter, Bool.not_eq_true',
    and_assoc]

theorem claimsOn_nil (now : Time) (id : String) : claimsOn now id [] = 0 := rfl

theorem claimsOn_cons (now : Time) (id : String) (x : AgentRegistration)
    (r : Registry) :
    claimsOn now id (x :: r) = agentClaimsOn now id x + claimsOn now id r := by
  simp [claimsOn]

theorem getAllClaims_cons (now : Time) (x : AgentRegistration) (r : Registry) :
    getAllClaims now (x :: r) =
      (goElems x.claimedWork).filter (fun c => !(c.IsExpired now)) ++
        getAllClaims now r := by
  simp [getAllClaims]

theorem claimsOn_eq_filter_getAllClaims (now : Time) (id : String)
    (r : Registry) :
    claimsOn now id r =
      ((getAllClaims now r).filter (fun c => c.beadID == id)).length := by
  induction r with
  | nil => rfl
  | cons x rest ih =>
    rw [claimsOn_cons, ih, getAllClaims_cons, List.filter_append,
      List.length_append]
    congr 1
    rw [agentClaimsOn, List.countP_eq_length_filter, List.filter_filter]

theorem agentClaimsOn_congr (now : Time) (id : String)
    (a b : AgentRegistration) (h : a.claimedWork = b.claimedWork) :
    agentClaimsOn now id a = agentClaimsOn now id b := by
  simp [agentClaimsOn, h]

theorem claimsOn_filter_le (now : Time) (id : String) (r : Registry)
    (p : AgentRegistration → Bool) :
    claimsOn now id (r.filter p) ≤ claimsOn now id r := by
  unfold claimsOn
  exact List.Sublist.sum_le_sum
    (List.Sublist.map (agentClaimsOn now id) (List.filter_sublist r))
    (fun a _ => Nat.zero_le a)

theorem claimsOn_update_le (now : Time) (id n : String)
    (f : AgentRegistration → AgentRegistration)
    (hb : ∀ a, agentClaimsOn now id (f a) ≤ agentClaimsOn now id a)
    (r : Registry) :
    claimsOn now id (r.update n f) ≤ claimsOn now id r := by
  induction r with
  | nil => simp [Registry.update]
  | cons x rest ih =>
    by_cases hx : x.name == n
    · simp only [Registry.update, hx, if_pos, claimsOn_cons]
      exact Nat.add_le_add (hb x) (Nat.le_refl _)
    · simp only [Registry.update, hx, if_neg, Bool.false_eq_true,
        not_false_iff, claimsOn_cons]
      exact Nat.add_le_add (Nat.le_refl _) ih

theorem claimsOn_eq_zero (now : Time) (id : String) (r : Registry)
    (h : ∀ a ∈ r, agentClaimsOn now id a = 0) :
    claimsOn now id r = 0 := by
  induction r with
  | nil => rfl
  | cons x rest ih =>
    rw [claimsOn_cons, h x (List.mem_cons_self x rest),
      ih (fun a ha => h a (List.mem_cons_of_mem x ha))]

theorem claimsOn_update_le_one (now : Time) (id n : String)
    (f : AgentRegistration → AgentRegistration) (r : Registry)
    (hWF : r.WF)
    (hf : ∀ a, agentClaimsOn now id (f a) ≤ 1)
    (hz : ∀ a ∈ r, a.name ≠ n → agentClaimsOn now id a = 0) :
    claimsOn now id (r.update n f) ≤ 1 := by
  induction r with
  | nil => simp [Registry.update, claimsOn_nil]
  | cons x rest ih =>
    have hWF' : Registry.WF rest := (List.nodup_cons.mp hWF).2
    by_cases hx : x.name == n
    · have hx' : x.name = n := by simpa using hx
      have hrest : claimsOn now id rest = 0 := by
        refine claimsOn_eq_zero now id rest (fun a ha => ?_)
        refine hz a (List.mem_cons_of_mem x ha) (fun han => ?_)
        have hnx : x.name ∉ rest.map (fun a => a.name) :=
          (List.nodup_cons.mp hWF).1
        exact hnx (hx' ▸ han ▸ List.mem_map_of_mem (fun a => a.name) ha)
      simp only [Registry.update, hx, if_pos, claimsOn_cons, hrest]
      simpa using hf x
    · have hx' : ¬ x.name = n := by simpa using hx
      have hx0 : agentClaimsOn now id x = 0 :=
        hz x (List.mem_cons_self x rest) hx'
      simp only [Registry.update, hx, Bool.false_eq_true, not_false_iff,
        if_neg, claimsOn_cons, hx0, Nat.zero_add]
      exact ih hWF' (fun a ha han => hz a (List.mem_cons_of_mem x ha) han)

theorem claimsOn_put_le (now : Time) (id : String) (a : AgentRegistration) :
    ∀ r : Registry,
    (∀ e, Registry.get? r a.name = some e →
      agentClaimsOn now id a ≤ agentClaimsOn now id e) →
    (Registry.get? r a.name = none → agentClaimsOn now id a = 0) →
    claimsOn now id (r.put a) ≤ claimsOn now id r
  | [], h, h0 => by
    simp [Registry.put, claimsOn_cons, claimsOn_nil, h0 rfl]
  | x :: rest, h, h0 => by
    by_cases hx : x.name == a.name
    · have hsome : Registry.get? (x :: rest) a.name = some x := by
        rw [get?_cons]
        simp [show x.name = a.name from by simpa using hx]
      simp only [Registry.put, hx, if_pos, claimsOn_cons]
      exact Nat.add_le_add (h x hsome) (Nat.le_refl _)
    · have hskip : Registry.get? (x :: rest) a.name =
          Registry.get? rest a.name := by
        rw [get?_cons]; simp [hx]
      simp only [Registry.put, hx, Bool.false_eq_true, not_false_iff,
        if_neg, claimsOn_cons]
      refine Nat.add_le_add (Nat.le_refl _) ?_
      exact claimsOn_put_le now id a rest
        (fun e he => h e (hskip ▸ he)) (fun hn => h0 (hskip ▸ hn))

theorem agentClaimsOn_mono_time (now now2 : Time) (h : now ≤ now2)
    (id : String) (a : AgentRegistration) :
    agentClaimsOn now2 id a ≤ agentClaimsOn now id a := by
  unfold agentClaimsOn
  refine List.countP_mono_left (fun c _ hc => ?_)
  simp only [Bool.and_eq_true, Bool.not_eq_true', WorkClaim.IsExpired] at hc ⊢
  refine ⟨hc.1, ?_⟩
  have h2 := hc.2
  simp only [decide_eq_false_iff_not, not_lt] at h2 ⊢
  exact le_trans h h2

theorem claimsOn_mono_time (now now2 : Time) (h : now ≤ now2)
    (id : String) (r : Registry) :
    claimsOn now2 id r ≤ claimsOn now id r := by
  unfold claimsOn
  exact List.sum_le_sum (fun a _ => agentClaimsOn_mono_time now now2 h id a)

theorem loadLines_malformed (rest : List FileLine) :
    ∀ (pre : List FileLine), (∀ l ∈ pre, l ≠ FileLine.malformed) →
    ∀ (acc : Registry) (n : Nat),
      (loadLines (pre ++ FileLine.malformed :: rest) acc n).2 =
        some (n + pre.length)
  | [], _, acc, n => by simp [loadLines]
  | l :: pre, h, acc, n => by
    have hpre : ∀ x ∈ pre, x ≠ FileLine.malformed :=
      fun x hx => h x (List.mem_cons_of_mem _ hx)
    cases l with
    | blank =>
      rw [List.cons_append]
      show (loadLines (pre ++ FileLine.malformed :: rest) acc (n + 1)).2 = _
      rw [loadLines_malformed rest pre hpre acc (n + 1)]
      simp; omega
    | record a =>
      rw [List.cons_append]
      show (loadLines (pre ++ FileLine.malformed :: rest) (acc.put a) (n + 1)).2 = _
      rw [loadLines_malformed rest pre hpre (acc.put a) (n + 1)]
      simp; omega
    | malformed => exact absurd rfl (h _ (List.mem_cons_self _ _))

theorem put_append_of_not_mem (a : AgentRegistration) :
    ∀ (acc : Registry), a.name ∉ acc.map (fun x => x.name) →
      acc.put a = acc ++ [a]
  | [], _ => rfl
  | x :: rest, h => by
    have hx : ¬ x.name = a.name := by
      intro hh
      exact h (by simp [hh])
    have hrest : a.name ∉ rest.map (fun x => x.name) := by
      intro hh
      exact h (by simp [hh])
    have hx2 : ¬ (x.name == a.name) = true := by simpa using hx
    simp only [Registry.put, List.cons_append]
    rw [if_neg hx2]
    exact congrArg (fun t => x :: t) (put_append_of_not_mem a rest hrest)

theorem loadLines_records :
    ∀ (l : List AgentRegistration) (acc : Registry) (n : Nat),
      (acc.map (fun a => a.name) ++ l.map (fun a => a.name)).Nodup →
      loadLines (l.map FileLine.record) acc n = (acc ++ l, none)
  | [], acc, n, _ => by simp [loadLines]
  | a :: l, acc, n, h => by
    have hnot : a.name ∉ acc.map (fun x => x.name) := by
      intro hmem
      have := List.disjoint_of_nodup_append h
      exact this hmem (by simp)
    rw [List.map_cons]
    show loadLines (l.map FileLine.record) (acc.put a) (n + 1) = _
    rw [put_append_of_not_mem a acc hnot]
    have h2 : ((acc ++ [a]).map (fun x => x.name) ++
        l.map (fun a => a.name)).Nodup := by
      simpa [List.append_assoc] using h
    rw [loadLines_records l (acc ++ [a]) (n + 1) h2]
    simp

/-- C8: Load on a missing snapshot file succeeds and leaves the registry
empty; Load on a file whose records up to some point are well formed or
blank and whose next line is malformed fails naming the line number of
that record (lines are counted from 1, blank lines included), instead of
skipping it. -/
theorem C8_load_missing_and_malformed (pre rest : List FileLine)
    (hpre : ∀ l ∈ pre, l ≠ FileLine.malformed) :
    load none = ([], none) ∧
    (load (some (pre ++ FileLine.malformed :: rest))).2 =
      some (pre.length + 1) := by
  refine ⟨rfl, ?_⟩
  show (loadLines (pre ++ FileLine.malformed :: rest) [] 1).2 = _
  rw [loadLines_malformed rest pre hpre [] 1, Nat.add_comm]

/-- C8 witness: a file with a blank first line, a good record on line 2
and a malformed record on line 3 fails naming line 3. -/
theorem C8_load_missing_and_malformed_witness :
    (∀ l ∈ [FileLine.blank, FileLine.record agentA],
      l ≠ FileLine.malformed) ∧
    (load none = ([], none) ∧
      (load (some ([FileLine.blank, FileLine.record agentA] ++
        FileLine.malformed :: [FileLine.record agentB]))).2 = some 3) :=
  ⟨by decide,
    C8_load_missing_and_malformed [FileLine.blank, FileLine.record agentA]
      [FileLine.record agentB] (by decide)⟩

/-- C5: saving a registry and loading the snapshot into a fresh store
reproduces the registry exactly: the same agents under the same names
with the same field values, claims and hints, for any registry with
unique names, including the empty one. -/
theorem C5_save_load_roundtrip (r : Registry) (hWF : r.WF) :
    load (some (save r)) = (r, none) := by
  show loadLines (r.map FileLine.record) [] 1 = (r, none)
  have h : (([] : Registry).map (fun a => a.name) ++
      r.map (fun a => a.name)).Nodup := by simpa using hWF
  rw [loadLines_records r [] 1 h]
  simp

/-- C5 witness: the round trip at a two-agent registry, one holding a
claim, and at the empty registry. -/
theorem C5_save_load_roundtrip_witness :
    Registry.WF [agentWithClaim, agentB] ∧
    load (some (save [agentWithClaim, agentB])) =
      ([agentWithClaim, agentB], none) :=
  ⟨by decide, C5_save_load_roundtrip [agentWithClaim, agentB] (by decide)⟩

/-- C4 at the failing input: a single active agent holding two unexpired
hints on the same pattern is reported as a conflict, with the agent
listed twice, although only one distinct active agent references the
pattern; the claim (two or more distinct agents required) says this
yields no conflict. -/
theorem C4_single_agent_self_conflict :
    getFileConflicts 6 [agentTwoHints] =
      [⟨"main.go", ["a", "a"], ["bv-1", "bv-2"]⟩] ∧
    (fileAgents 6 [agentTwoHints] "main.go").dedup = ["a"] := by
  constructor <;> decide

/-- C9 at the failing input: Register stores the caller pointer itself, so
a mutation the caller makes through that pointer after registering is
observed by a later Get; the store does not hold an independent copy of
the registration. -/
theorem C9_register_retains_caller_pointer :
    (registerPtr 5 [agentP] 0 []).1 = none ∧
    getPtr (heapSet (registerPtr 5 [agentP] 0 []).2.1 0 agentPMut)
      (registerPtr 5 [agentP] 0 []).2.2 "a" = some agentPMut ∧
    agentPMut.model ≠ agentP.model := by
  refine ⟨by decide, by decide, by decide⟩

/-- C7 (amended): CleanupExpired deletes no agent and keeps every name;
per agent it keeps exactly the claims and hints whose expiry has not
passed, and sets status gone when the idle time strictly exceeds the
stale threshold of one hour, inactive when it reaches or exceeds (not
only strictly exceeds) the inactivity threshold of thirty minutes, and
leaves it unchanged otherwise; name, last-seen and start time stay. -/
theorem C7_cleanup_characterisation (now : Time) (r : Registry)
    (a : AgentRegistration) (c : WorkClaim) (h : FileHint) (ha : a ∈ r) :
    (cleanupExpired now r).length = r.length ∧
    (cleanupExpired now r).map (fun x => x.name) = r.map (fun x => x.name) ∧
    cleanupAgent now a ∈ cleanupExpired now r ∧
    (c ∈ goElems (cleanupAgent now a).claimedWork ↔
      (c ∈ goElems a.claimedWork ∧ now ≤ c.expiresAt)) ∧
    (h ∈ goElems (cleanupAgent now a).fileHints ↔
      (h ∈ goElems a.fileHints ∧ now ≤ h.expiresAt)) ∧
    (cleanupAgent now a).status =
      (if DefaultStaleThreshold < now - a.lastSeen then "gone"
       else if DefaultInactivityThreshold ≤ now - a.lastSeen then "inactive"
       else a.status) ∧
    (cleanupAgent now a).name = a.name ∧
    (cleanupAgent now a).lastSeen = a.lastSeen ∧
    (cleanupAgent now a).startedAt = a.startedAt := by
  refine ⟨by simp [cleanupExpired], ?_, List.mem_map_of_mem _ ha, ?_, ?_, ?_,
    rfl, rfl, rfl⟩
  · rw [cleanupExpired, List.map_map]
    exact List.map_congr_left (fun x _ => rfl)
  · show c ∈ goElems (goSlice _) ↔ _
    rw [goElems_goSlice, List.mem_filter]
    simp [WorkClaim.IsExpired, not_lt]
  · show h ∈ goElems (goSlice _) ↔ _
    rw [goElems_goSlice, List.mem_filter]
    simp [FileHint.IsExpired, not_lt]
  · show (if a.IsStale now DefaultStaleThreshold then "gone"
      else if !(a.IsActive now DefaultInactivityThreshold) then "inactive"
      else a.status) = _
    simp [AgentRegistration.IsStale, AgentRegistration.IsActive, not_lt]

/-- C7 witness: the sweep at instant 200 on the one-agent registry whose
agent holds the claim on bead x expiring at 100. -/
theorem C7_cleanup_characterisation_witness :
    agentWithClaim ∈ [agentWithClaim] ∧
    ((cleanupExpired 200 [agentWithClaim]).length = [agentWithClaim].length ∧
    (cleanupExpired 200 [agentWithClaim]).map (fun x => x.name) =
      [agentWithClaim].map (fun x => x.name) ∧
    cleanupAgent 200 agentWithClaim ∈ cleanupExpired 200 [agentWithClaim] ∧
    (claimXA ∈ goElems (cleanupAgent 200 agentWithClaim).claimedWork ↔
      (claimXA ∈ goElems agentWithClaim.claimedWork ∧
        (200 : Time) ≤ claimXA.expiresAt)) ∧
    (hintOne ∈ goElems (cleanupAgent 200 agentWithClaim).fileHints ↔
      (hintOne ∈ goElems agentWithClaim.fileHints ∧
        (200 : Time) ≤ hintOne.expiresAt)) ∧
    (cleanupAgent 200 agentWithClaim).status =
      (if DefaultStaleThreshold < 200 - agentWithClaim.lastSeen then "gone"
       else if DefaultInactivityThreshold ≤ 200 - agentWithClaim.lastSeen
         then "inactive"
       else agentWithClaim.status) ∧
    (cleanupAgent 200 agentWithClaim).name = agentWithClaim.name ∧
    (cleanupAgent 200 agentWithClaim).lastSeen = agentWithClaim.lastSeen ∧
    (cleanupAgent 200 agentWithClaim).startedAt = agentWithClaim.startedAt) :=
  ⟨by decide,
    C7_cleanup_characterisation 200 [agentWithClaim] agentWithClaim claimXA
      hintOne (by decide)⟩

/-- C7 counterexample: an agent idle for exactly thirty minutes, which
does not exceed the inactivity threshold, still has its status set to
inactive by the sweep, where the claim as stated requires it unchanged
(active). -/
theorem C7_boundary_counterexample :
    agentBoundary.status = "active" ∧
    ¬(DefaultInactivityThreshold - agentBoundary.lastSeen >
        DefaultInactivityThreshold) ∧
    ¬(DefaultInactivityThreshold - agentBoundary.lastSeen >
        DefaultStaleThreshold) ∧
    (cleanupExpired DefaultInactivityThreshold [agentBoundary]).map
      (fun x => x.status) = ["inactive"] := by
  refine ⟨rfl, by decide, by decide, by decide⟩

/-- C10: a Claim call failing with a validation, not-found or conflict
error, a Release call failing with a not-found error, and a Heartbeat,
AddFileHint or RemoveFileHint call failing with a not-found error leave
the registry exactly as it was. -/
theorem C10_failed_mutations_frame (now : Time) (an bid pat : String)
    (c : WorkClaim) (fh : FileHint) (r : Registry) :
    ((claimOp now an c r).1.isSome = true → (claimOp now an c r).2 = r) ∧
    ((release now an bid r).1.isSome = true → (release now an bid r).2 = r) ∧
    ((heartbeat now an r).1.isSome = true → (heartbeat now an r).2 = r) ∧
    ((addFileHint now an fh r).1.isSome = true →
      (addFileHint now an fh r).2 = r) ∧
    ((removeFileHint now an pat r).1.isSome = true →
      (removeFileHint now an pat r).2 = r) := by
  refine ⟨?_, ?_, ?_, ?_, ?_⟩ <;> intro h
  · unfold claimOp at h ⊢
    cases hv : c.Validate with
    | some e => simp [hv]
    | none =>
      simp only [hv] at h ⊢
      cases hcont : r.contains an with
      | false => simp [hcont]
      | true =>
        simp only [hcont, Bool.not_true, Bool.false_eq_true, if_false] at h ⊢
        cases hf : r.find? (conflictScan now an c) with
        | none => simp [hf] at h
        | some o => simp [hf]
  · unfold release at h ⊢
    cases hg : Registry.get? r an with
    | none => simp [hg]
    | some a =>
      simp only [hg] at h ⊢
      cases hany : (goElems a.claimedWork).any (fun c => c.beadID == bid) with
      | false => simp [hany]
      | true => simp [hany] at h
  · unfold heartbeat at h ⊢
    cases hcont : r.contains an with
    | false => simp [hcont]
    | true => simp [hcont] at h
  · unfold addFileHint at h ⊢
    cases hcont : r.contains an with
    | false => simp [hcont]
    | true => simp [hcont] at h
  · unfold removeFileHint at h ⊢
    cases hcont : r.contains an with
    | false => simp [hcont]
    | true => simp [hcont] at h

/-- C10 witness: claiming for the unregistered agent x on the empty
registry fails and leaves the registry empty. -/
theorem C10_failed_mutations_frame_witness :
    (claimOp 5 "x" claimXA []).1.isSome = true ∧
    (claimOp 5 "x" claimXA []).2 = [] :=
  ⟨by decide,
    (C10_failed_mutations_frame 5 "x" "y" "p" claimXA hintOne []).1 (by decide)⟩

/-- C3 (amended): registering a valid record whose name already exists
keeps the existing agent's original start time, sets last-heartbeat to
now and upserts under the name, leaving other agents untouched; the
existing claims (respectively hints) are carried forward exactly when the
incoming record's claim (hint) slice is nil -- an incoming empty but
non-nil slice replaces them instead. -/
theorem C3_register_existing (now : Time) (reg e : AgentRegistration)
    (r : Registry) (m : String)
    (hval : reg.Validate = none)
    (he : Registry.get? r reg.name = some e)
    (hm : ¬ reg.name = m) :
    (register now reg r).1 = none ∧
    Registry.get? (register now reg r).2 reg.name = some
      { reg with
        startedAt := e.startedAt
        claimedWork := if reg.claimedWork = none then e.claimedWork
                       else reg.claimedWork
        fileHints := if reg.fileHints = none then e.fileHints
                     else reg.fileHints
        lastSeen := now } ∧
    Registry.get? (register now reg r).2 m = Registry.get? r m := by
  unfold register
  rw [hval, he]
  refine ⟨rfl, ?_, ?_⟩
  · show Registry.get? (r.put _) reg.name = _
    rw [get?_put]
    simp
  · show Registry.get? (r.put _) m = _
    rw [get?_put]
    simp [hm]

/-- C3 witness: re-registering name a with nil claim and hint slices
carries the existing claim forward and keeps the original start time. -/
theorem C3_register_existing_witness :
    reRegNil.Validate = none ∧
    Registry.get? [agentWithClaim, agentB] reRegNil.name =
      some agentWithClaim ∧
    ¬ reRegNil.name = "b" ∧
    ((register 11 reRegNil [agentWithClaim, agentB]).1 = none ∧
    Registry.get? (register 11 reRegNil [agentWithClaim, agentB]).2
        reRegNil.name = some
      { reRegNil with
        startedAt := agentWithClaim.startedAt
        claimedWork := if reRegNil.claimedWork = none
                       then agentWithClaim.claimedWork
                       else reRegNil.claimedWork
        fileHints := if reRegNil.fileHints = none then agentWithClaim.fileHints
                     else reRegNil.fileHints
        lastSeen := 11 } ∧
    Registry.get? (register 11 reRegNil [agentWithClaim, agentB]).2 "b" =
      Registry.get? [agentWithClaim, agentB] "b") :=
  ⟨by decide, by decide, by decide,
    C3_register_existing 11 reRegNil agentWithClaim [agentWithClaim, agentB]
      "b" (by decide) (by decide) (by decide)⟩

/-- C3 counterexample: the incoming record reRegEmpty carries no claims
(its claim slice is empty but non-nil, exactly as NewAgentRegistration
builds it), the existing agent a holds a claim, registration succeeds,
and the stored claim list afterwards is empty: the existing claims are
not carried forward. -/
theorem C3_empty_slice_drops_claims :
    goElems reRegEmpty.claimedWork = [] ∧
    (register 9 reRegEmpty [agentWithClaim]).1 = none ∧
    Registry.get? [agentWithClaim] "a" = some agentWithClaim ∧
    goElems agentWithClaim.claimedWork = [claimXA] ∧
    (Registry.get? (register 9 reRegEmpty [agentWithClaim]).2 "a").map
      (fun x => goElems x.claimedWork) = some [] := by
  refine ⟨rfl, by decide, by decide, by decide, by decide⟩

/-- C2: Claim with a valid claim fails not-found when the agent is
unregistered, leaving the registry as it was; when some other agent
holds an unexpired claim on the same bead it fails with a conflict error
naming an agent that does hold such a claim, again leaving state as it
was; otherwise it succeeds, replaces the claiming agent's own claims on
that bead by the new claim appended at the end, sets its last-heartbeat
to now, and leaves every other agent untouched. -/
theorem C2_claim_semantics (now : Time) (an m : String) (c : WorkClaim)
    (r : Registry) (hv : c.Validate = none) (hm : ¬ an = m) :
    (Registry.get? r an = none →
      claimOp now an c r = (some (.notFound an), r)) ∧
    (Registry.contains r an = true → r.any (conflictScan now an c) = true →
      ∃ h2, h2 ∈ r ∧ conflictScan now an c h2 = true ∧
        claimOp now an c r = (some (.conflict c.beadID h2.name), r)) ∧
    (Registry.contains r an = true → r.any (conflictScan now an c) = false →
      (claimOp now an c r).1 = none ∧
      Registry.get? (claimOp now an c r).2 an =
        (Registry.get? r an).map (claimF now c) ∧
      Registry.get? (claimOp now an c r).2 m = Registry.get? r m) := by
  refine ⟨?_, ?_, ?_⟩
  · intro hnone
    have hc : r.contains an = false := by
      simp [Registry.contains, hnone]
    unfold claimOp
    rw [hv]
    simp [hc]
  · intro hcont hany
    cases hf : r.find? (conflictScan now an c) with
    | none =>
      rw [List.find?_eq_none] at hf
      rw [List.any_eq_true] at hany
      obtain ⟨o, ho, hpo⟩ := hany
      exact absurd hpo (hf o ho)
    | some o =>
      refine ⟨o, List.mem_of_find?_eq_some hf, List.find?_some hf, ?_⟩
      unfold claimOp
      rw [hv]
      simp [hcont, hf]
  · intro hcont hany
    have hf : r.find? (conflictScan now an c) = none := by
      rw [List.find?_eq_none]
      intro x hx hpx
      rw [← Bool.not_eq_true] at hany  
      exact hany (List.any_eq_true.mpr ⟨x, hx, hpx⟩)
    have hupd : claimOp now an c r = (none, r.update an (claimF now c)) := by
      unfold claimOp
      rw [hv]
      simp [hcont, hf]
    rw [hupd]
    refine ⟨rfl, ?_, ?_⟩
    · rw [get?_update r an an (claimF now c) (fun a => rfl)]
      simp
    · rw [get?_update r an m (claimF now c) (fun a => rfl)]
      simp [hm]

/-- C2 witness: agent a renewing its claim on bead x at instant 11 in the
two-agent registry where only a itself holds a claim on x. -/
theorem C2_claim_semantics_witness :
    claimXA.Validate = none ∧
    ¬ "a" = "b" ∧
    ((Registry.get? [agentWithClaim, agentB] "a" = none →
      claimOp 11 "a" claimXA [agentWithClaim, agentB] =
        (some (.notFound "a"), [agentWithClaim, agentB])) ∧
    (Registry.contains [agentWithClaim, agentB] "a" = true →
      List.any [agentWithClaim, agentB] (conflictScan 11 "a" claimXA) = true →
      ∃ h2, h2 ∈ [agentWithClaim, agentB] ∧
        conflictScan 11 "a" claimXA h2 = true ∧
        claimOp 11 "a" claimXA [agentWithClaim, agentB] =
          (some (.conflict claimXA.beadID h2.name), [agentWithClaim, agentB])) ∧
    (Registry.contains [agentWithClaim, agentB] "a" = true →
      List.any [agentWithClaim, agentB] (conflictScan 11 "a" claimXA) = false →
      (claimOp 11 "a" claimXA [agentWithClaim, agentB]).1 = none ∧
      Registry.get? (claimOp 11 "a" claimXA [agentWithClaim, agentB]).2 "a" =
        (Registry.get? [agentWithClaim, agentB] "a").map (claimF 11 claimXA) ∧
      Registry.get? (claimOp 11 "a" claimXA [agentWithClaim, agentB]).2 "b" =
        Registry.get? [agentWithClaim, agentB] "b")) :=
  ⟨by decide, by decide,
    C2_claim_semantics 11 "a" "b" claimXA [agentWithClaim, agentB]
      (by decide) (by decide)⟩

theorem claimOp_snd (now : Time) (m : String) (c2 : WorkClaim)
    (r : Registry) :
    (claimOp now m c2 r).2 = r ∨
    (claimOp now m c2 r).2 = r.update m (claimF now c2) := by
  unfold claimOp
  cases hv : c2.Validate with
  | some e => exact Or.inl rfl
  | none =>
    cases hcont : r.contains m with
    | false => simp [hcont]
    | true =>
      cases hf : r.find? (conflictScan now m c2) with
      | none => simp [hcont, hf]
      | some o => simp [hcont, hf]

theorem release_snd (now : Time) (m rid : String) (r : Registry) :
    (release now m rid r).2 = r ∨
    (release now m rid r).2 = r.update m (releaseF now rid) := by
  unfold release
  cases hg : Registry.get? r m with
  | none => exact Or.inl rfl
  | some a =>
    cases hany : (goElems a.claimedWork).any (fun c => c.beadID == rid) with
    | false => simp [hany]
    | true => simp [hany]

theorem heartbeat_snd (now : Time) (m : String) (r : Registry) :
    (heartbeat now m r).2 = r ∨
    (heartbeat now m r).2 = r.update m (heartbeatF now) := by
  unfold heartbeat
  cases hcont : r.contains m <;> simp [hcont]

theorem addFileHint_snd (now : Time) (m : String) (fh : FileHint)
    (r : Registry) :
    (addFileHint now m fh r).2 = r ∨
    (addFileHint now m fh r).2 = r.update m (addHintF now fh) := by
  unfold addFileHint
  cases hcont : r.contains m <;> simp [hcont]

theorem removeFileHint_snd (now : Time) (m pat : String) (r : Registry) :
    (removeFileHint now m pat r).2 = r ∨
    (removeFileHint now m pat r).2 = r.update m (removeHintF now pat) := by
  unfold removeFileHint
  cases hcont : r.contains m <;> simp [hcont]


/-- C6 (amended): a claim c with a past expiry held by agent n is
excluded from GetAllClaims, never makes GetClaimHolder return its holder
(any returned holder owes it to an unexpired claim), and is excluded from
ActiveClaims, but still appears in Get and List; it is removed by Release
of that bead by its holder and by CleanupExpired, and also disappears
when the same agent renews the claim on the same bead, when Register
overwrites the claim slice, or when Unregister deletes the holder; apart
from these, Heartbeat, AddFileHint, RemoveFileHint, and Claim or Release
calls for a different bead or by a different agent leave it in place. -/
theorem C6_expired_claim_lifecycle (now now2 : Time) (r : Registry)
    (n m : String) (a : AgentRegistration) (c c2 : WorkClaim)
    (rid : String) (fh : FileHint) (pat : String)
    (ha : Registry.get? r n = some a)
    (hc : c ∈ goElems a.claimedWork)
    (hexp : c.IsExpired now = true)
    (hc2 : ¬ (m = n ∧ c2.beadID = c.beadID))
    (hrid : ¬ (m = n ∧ rid = c.beadID)) :
    c ∉ a.ActiveClaims now ∧
    c ∉ getAllClaims now r ∧
    (∀ h2, getClaimHolder now c.beadID r = some h2 →
      (goElems h2.claimedWork).any (fun x =>
        x.beadID == c.beadID && !(x.IsExpired now)) = true) ∧
    get r n = some a ∧
    a ∈ list r ∧
    ((release now2 n c.beadID r).1 = none ∧
      (∃ a2, Registry.get? (release now2 n c.beadID r).2 n = some a2 ∧
        c ∉ goElems a2.claimedWork)) ∧
    (∃ a3, Registry.get? (cleanupExpired now r) n = some a3 ∧
      c ∉ goElems a3.claimedWork) ∧
    (∃ a4, Registry.get? (heartbeat now2 m r).2 n = some a4 ∧
      c ∈ goElems a4.claimedWork) ∧
    (∃ a5, Registry.get? (addFileHint now2 m fh r).2 n = some a5 ∧
      c ∈ goElems a5.claimedWork) ∧
    (∃ a6, Registry.get? (removeFileHint now2 m pat r).2 n = some a6 ∧
      c ∈ goElems a6.claimedWork) ∧
    (∃ a7, Registry.get? (claimOp now2 m c2 r).2 n = some a7 ∧
      c ∈ goElems a7.claimedWork) ∧
    (∃ a8, Registry.get? (release now2 m rid r).2 n = some a8 ∧
      c ∈ goElems a8.claimedWork) := by
  have hmem : a ∈ r := List.mem_of_find?_eq_some ha
  refine ⟨?_, ?_, ?_, ha, hmem, ?_, ?_, ?_, ?_, ?_, ?_, ?_⟩
  · simp [AgentRegistration.ActiveClaims, List.mem_filter, hexp]
  · rw [mem_getAllClaims]
    rintro ⟨x, hx, hcx, hfalse⟩
    rw [hexp] at hfalse
    exact Bool.noConfusion hfalse
  · intro h2 hh
    unfold getClaimHolder at hh
    have hp := List.find?_some hh
    simpa using hp
  · -- release of this bead by its holder succeeds and removes c
    have hany : (goElems a.claimedWork).any
        (fun x => x.beadID == c.beadID) = true :=
      List.any_eq_true.mpr ⟨c, hc, by simp⟩
    have hres : release now2 n c.beadID r =
        (none, r.update n (releaseF now2 c.beadID)) := by
      unfold release
      rw [ha]
      simp [hany]
    rw [hres]
    refine ⟨rfl, ?_⟩
    rw [get?_update r n n (releaseF now2 c.beadID) (fun x => rfl)]
    simp only [if_pos rfl, ha, Option.map_some]
    refine ⟨_, rfl, ?_⟩
    show c ∉ goElems (goSlice _)
    rw [goElems_goSlice, List.mem_filter]
    simp
  · -- the cleanup sweep removes c
    show ∃ a3, Registry.get? (r.map (cleanupAgent now)) n = some a3 ∧ _
    rw [get?_map_of_name r (cleanupAgent now) (fun x => rfl) n, ha]
    refine ⟨_, rfl, ?_⟩
    show c ∉ goElems (goSlice _)
    rw [goElems_goSlice, List.mem_filter]
    simp [hexp]
  · -- heartbeat anywhere keeps c
    rcases heartbeat_snd now2 m r with h | h <;> rw [h]
    · exact ⟨a, ha, hc⟩
    · rw [get?_update r m n (heartbeatF now2) (fun x => rfl)]
      by_cases hmn : m = n
      · simp only [if_pos hmn, hmn, ha, Option.map_some]
        exact ⟨_, rfl, hc⟩
      · simp only [if_neg hmn]
        exact ⟨a, ha, hc⟩
  · -- adding a hint anywhere keeps c
    rcases addFileHint_snd now2 m fh r with h | h <;> rw [h]
    · exact ⟨a, ha, hc⟩
    · rw [get?_update r m n (addHintF now2 fh) (fun x => rfl)]
      by_cases hmn : m = n
      · simp only [if_pos hmn, hmn, ha, Option.map_some]
        exact ⟨_, rfl, hc⟩
      · simp only [if_neg hmn]
        exact ⟨a, ha, hc⟩
  · -- removing a hint anywhere keeps c
    rcases removeFileHint_snd now2 m pat r with h | h <;> rw [h]
    · exact ⟨a, ha, hc⟩
    · rw [get?_update r m n (removeHintF now2 pat) (fun x => rfl)]
      by_cases hmn : m = n
      · simp only [if_pos hmn, hmn, ha, Option.map_some]
        exact ⟨_, rfl, hc⟩
      · simp only [if_neg hmn]
        exact ⟨a, ha, hc⟩
  · -- a claim on a different bead or by a different agent keeps c
    rcases claimOp_snd now2 m c2 r with h | h <;> rw [h]
    · exact ⟨a, ha, hc⟩
    · rw [get?_update r m n (claimF now2 c2) (fun x => rfl)]
      by_cases hmn : m = n
      · simp only [if_pos hmn, hmn, ha, Option.map_some]
        refine ⟨_, rfl, ?_⟩
        have hne : ¬ (c.beadID == c2.beadID) = true := by
          simp only [beq_iff_eq]
          intro hbe
          exact hc2 ⟨hmn, hbe.symm⟩
        show c ∈ (goElems a.claimedWork).filter
          (fun x => !(x.beadID == c2.beadID)) ++ [c2]
        exact List.mem_append_left _
          (List.mem_filter.mpr ⟨hc, by simp [hne]⟩)
      · simp only [if_neg hmn]
        exact ⟨a, ha, hc⟩
  · -- a release of a different bead or by a different agent keeps c
    rcases release_snd now2 m rid r with h | h <;> rw [h]
    · exact ⟨a, ha, hc⟩
    · rw [get?_update r m n (releaseF now2 rid) (fun x => rfl)]
      by_cases hmn : m = n
      · simp only [if_pos hmn, hmn, ha, Option.map_some]
        refine ⟨_, rfl, ?_⟩
        have hne : ¬ (c.beadID == rid) = true := by
          simp only [beq_iff_eq]
          intro hbe
          exact hrid ⟨hmn, hbe.symm⟩
        show c ∈ goElems (goSlice _)
        rw [goElems_goSlice]
        exact List.mem_filter.mpr ⟨hc, by simp [hne]⟩
      · simp only [if_neg hmn]
        exact ⟨a, ha, hc⟩

/-- C6 witness: agent a holds the claim on bead x expired at instant 200
in the two-agent registry; the read exclusions and inclusions hold, the
holder's Release and the sweep remove it, and heartbeat, hint operations
and claim or release of bead y by agent b keep it. -/
theorem C6_expired_claim_lifecycle_witness :
    (Registry.get? [agentWithClaim, agentB] "a" = some agentWithClaim ∧
     claimXA ∈ goElems agentWithClaim.claimedWork ∧
     claimXA.IsExpired 200 = true ∧
     ¬ ("b" = "a" ∧ claimYB.beadID = claimXA.beadID) ∧
     ¬ ("b" = "a" ∧ "y" = claimXA.beadID)) ∧
    (claimXA ∉ agentWithClaim.ActiveClaims 200 ∧
    claimXA ∉ getAllClaims 200 [agentWithClaim, agentB] ∧
    (∀ h2, getClaimHolder 200 claimXA.beadID [agentWithClaim, agentB] =
        some h2 →
      (goElems h2.claimedWork).any (fun x =>
        x.beadID == claimXA.beadID && !(x.IsExpired 200)) = true) ∧
    get [agentWithClaim, agentB] "a" = some agentWithClaim ∧
    agentWithClaim ∈ list [agentWithClaim, agentB] ∧
    ((release 300 "a" claimXA.beadID [agentWithClaim, agentB]).1 = none ∧
      (∃ a2, Registry.get? (release 300 "a" claimXA.beadID
          [agentWithClaim, agentB]).2 "a" = some a2 ∧
        claimXA ∉ goElems a2.claimedWork)) ∧
    (∃ a3, Registry.get? (cleanupExpired 200 [agentWithClaim, agentB]) "a" =
        some a3 ∧ claimXA ∉ goElems a3.claimedWork) ∧
    (∃ a4, Registry.get? (heartbeat 300 "b" [agentWithClaim, agentB]).2 "a" =
        some a4 ∧ claimXA ∈ goElems a4.claimedWork) ∧
    (∃ a5, Registry.get? (addFileHint 300 "b" hintOne
        [agentWithClaim, agentB]).2 "a" = some a5 ∧
      claimXA ∈ goElems a5.claimedWork) ∧
    (∃ a6, Registry.get? (removeFileHint 300 "b" "main.go"
        [agentWithClaim, agentB]).2 "a" = some a6 ∧
      claimXA ∈ goElems a6.claimedWork) ∧
    (∃ a7, Registry.get? (claimOp 300 "b" claimYB
        [agentWithClaim, agentB]).2 "a" = some a7 ∧
      claimXA ∈ goElems a7.claimedWork) ∧
    (∃ a8, Registry.get? (release 300 "b" "y"
        [agentWithClaim, agentB]).2 "a" = some a8 ∧
      claimXA ∈ goElems a8.claimedWork)) :=
  ⟨⟨by decide, by decide, by decide, by decide, by decide⟩,
    C6_expired_claim_lifecycle 200 300 [agentWithClaim, agentB] "a" "b"
      agentWithClaim claimXA claimYB "y" hintOne "main.go"
      (by decide) (by decide) (by decide) (by decide) (by decide)⟩

/-- C6 counterexample: agent a holds the claim on bead x, expired at
instant 200; a successful renewal Claim by the same agent on the same
bead, an operation that is neither Release nor CleanupExpired, removes
that expired claim from the stored list, replacing it with the fresh
one. -/
theorem C6_renewal_removes_expired_claim :
    claimXA ∈ goElems agentWithClaim.claimedWork ∧
    claimXA.IsExpired 200 = true ∧
    (claimOp 200 "a" ⟨"x", "a", 200, 300, "implementing", ""⟩
      [agentWithClaim]).1 = none ∧
    (Registry.get? (claimOp 200 "a" ⟨"x", "a", 200, 300, "implementing", ""⟩
        [agentWithClaim]).2 "a").map (fun x => goElems x.claimedWork) =
      some [⟨"x", "a", 200, 300, "implementing", ""⟩] := by
  refine ⟨by decide, by decide, by decide, by decide⟩

theorem claimsOn_le_total (now : Time) (id : String) (r : Registry) :
    claimsOn now id r ≤
      (r.map (fun a => (goElems a.claimedWork).length)).sum := by
  unfold claimsOn
  refine List.sum_le_sum (fun a _ => ?_)
  exact List.countP_le_length _

theorem agentClaimsOn_claimF_le_one (now : Time) (c : WorkClaim)
    (a : AgentRegistration) :
    agentClaimsOn now c.beadID (claimF now c a) ≤ 1 := by
  unfold agentClaimsOn claimF
  show List.countP _ ((goElems a.claimedWork).filter
    (fun x => !(x.beadID == c.beadID)) ++ [c]) ≤ 1
  rw [List.countP_append]
  have h1 : List.countP (fun x => x.beadID == c.beadID && !(x.IsExpired now))
      ((goElems a.claimedWork).filter (fun x => !(x.beadID == c.beadID))) =
        0 := by
    rw [List.countP_eq_zero]
    intro y hy hp
    have h2 := (List.mem_filter.mp hy).2
    have h3 := Bool.and_elim_left hp
    rw [h3] at h2
    exact Bool.noConfusion h2
  rw [h1, Nat.zero_add]
  exact List.countP_le_length _

theorem agentClaimsOn_claimF_le (now : Time) (id : String) (c : WorkClaim)
    (hid : ¬ id = c.beadID) (a : AgentRegistration) :
    agentClaimsOn now id (claimF now c a) ≤ agentClaimsOn now id a := by
  unfold agentClaimsOn claimF
  show List.countP _ ((goElems a.claimedWork).filter
    (fun x => !(x.beadID == c.beadID)) ++ [c]) ≤ _
  rw [List.countP_append]
  have h2 : List.countP (fun x => x.beadID == id && !(x.IsExpired now))
      [c] = 0 := by
    rw [List.countP_eq_zero]
    intro y hy hp
    rw [List.mem_singleton] at hy
    subst hy
    have h3 := Bool.and_elim_left hp
    rw [beq_iff_eq] at h3
    exact hid h3.symm
  rw [h2, Nat.add_zero, List.countP_filter]
  exact List.countP_mono_left (fun x _ h => Bool.and_elim_left h)

theorem agentClaimsOn_releaseF_le (now now2 : Time) (id bid : String)
    (a : AgentRegistration) :
    agentClaimsOn now id (releaseF now2 bid a) ≤ agentClaimsOn now id a := by
  unfold agentClaimsOn releaseF
  show List.countP _ (goElems (goSlice _)) ≤ _
  rw [goElems_goSlice, List.countP_filter]
  exact List.countP_mono_left (fun x _ h => Bool.and_elim_left h)

theorem agentClaimsOn_zero_of_no_conflict (now : Time) (an : String)
    (c : WorkClaim) (x : AgentRegistration)
    (hscan : conflictScan now an c x = false) (hx : ¬ x.name = an) :
    agentClaimsOn now c.beadID x = 0 := by
  unfold agentClaimsOn
  rw [List.countP_eq_zero]
  intro y hy hp
  have hany : (goElems x.claimedWork).any (fun ec =>
      ec.beadID == c.beadID && !(ec.IsExpired now)) = true :=
    List.any_eq_true.mpr ⟨y, hy, hp⟩
  unfold conflictScan at hscan
  rw [hany] at hscan
  simp [hx] at hscan

theorem agentClaimsOn_cleanupAgent (now : Time) (id : String)
    (a : AgentRegistration) :
    agentClaimsOn now id (cleanupAgent now a) = agentClaimsOn now id a := by
  unfold agentClaimsOn cleanupAgent
  show List.countP _ (goElems (goSlice _)) = _
  rw [goElems_goSlice, List.countP_filter]
  refine List.countP_congr (fun x _ => ?_)
  cases hx : x.IsExpired now <;> simp [hx]

theorem claimsOn_cleanup (now : Time) (id : String) (r : Registry) :
    claimsOn now id (cleanupExpired now r) = claimsOn now id r := by
  unfold claimsOn cleanupExpired
  rw [List.map_map]
  exact congrArg List.sum
    (List.map_congr_left (fun a _ => agentClaimsOn_cleanupAgent now id a))

/-- C1 (amended): the at-most-one-unexpired-claim-per-bead invariant is
monotone in time and preserved by Unregister, Claim, Release, Heartbeat,
AddFileHint, RemoveFileHint and CleanupExpired, and by Register whenever
the incoming record carries no claims (a nil or empty claim slice);
Register with a non-empty claim list is exempt, because claims are not
validated there and can break the invariant. -/
theorem C1_invariant_preservation (now now2 : Time) (r : Registry)
    (an bid pat : String) (c : WorkClaim) (fh : FileHint)
    (reg : AgentRegistration)
    (hWF : r.WF) (hInv : ClaimInvariant now r) (hle : now ≤ now2)
    (hreg : reg.claimedWork = none ∨ reg.claimedWork = some []) :
    ClaimInvariant now2 r ∧
    ClaimInvariant now (register now reg r).2 ∧
    ClaimInvariant now (unregister an r).2 ∧
    ClaimInvariant now (claimOp now an c r).2 ∧
    ClaimInvariant now (release now an bid r).2 ∧
    ClaimInvariant now (heartbeat now an r).2 ∧
    ClaimInvariant now (addFileHint now an fh r).2 ∧
    ClaimInvariant now (removeFileHint now an pat r).2 ∧
    ClaimInvariant now (cleanupExpired now r) := by
  refine ⟨?_, ?_, ?_, ?_, ?_, ?_, ?_, ?_, ?_⟩
  · intro id
    exact le_trans (claimsOn_mono_time now now2 hle id r) (hInv id)
  · -- register with a claim-free record
    cases hv : reg.Validate with
    | some e =>
      have h2 : (register now reg r).2 = r := by
        unfold register
        rw [hv]
      rw [h2]; exact hInv
    | none =>
      cases hg : Registry.get? r reg.name with
      | none =>
        have h2 : (register now reg r).2 =
            r.put { reg with lastSeen := now } := by
          unfold register
          rw [hv, hg]
        rw [h2]
        intro id
        refine le_trans (claimsOn_put_le now id _ r ?_ ?_) (hInv id)
        · intro e2 he2
          have he2' : Registry.get? r reg.name = some e2 := he2
          rw [hg] at he2'
          exact Option.noConfusion he2'
        · intro _
          rcases hreg with h | h <;> simp [agentClaimsOn, h, goElems]
      | some e =>
        have h2 : (register now reg r).2 =
            r.put { reg with
              startedAt := e.startedAt
              claimedWork := if reg.claimedWork = none then e.claimedWork
                             else reg.claimedWork
              fileHints := if reg.fileHints = none then e.fileHints
                           else reg.fileHints
              lastSeen := now } := by
          unfold register
          rw [hv, hg]
        rw [h2]
        intro id
        refine le_trans (claimsOn_put_le now id _ r ?_ ?_) (hInv id)
        · intro e2 he2
          have he2' : Registry.get? r reg.name = some e2 := he2
          rw [hg] at he2'
          injection he2' with hEq
          subst hEq
          rcases hreg with h | h
          · refine le_of_eq (agentClaimsOn_congr now id _ e ?_)
            show (if reg.claimedWork = none then e.claimedWork
              else reg.claimedWork) = e.claimedWork
            rw [if_pos h]
          · have hcw : (if reg.claimedWork = none then e.claimedWork
                else reg.claimedWork) = some [] := by
              rw [h]; simp
            rw [show agentClaimsOn now id
                { reg with
                  startedAt := e.startedAt
                  claimedWork := if reg.claimedWork = none then e.claimedWork
                                 else reg.claimedWork
                  fileHints := if reg.fileHints = none then e.fileHints
                               else reg.fileHints
                  lastSeen := now } =
                List.countP (fun c => c.beadID == id && !(c.IsExpired now))
                  (goElems (if reg.claimedWork = none then e.claimedWork
                    else reg.claimedWork)) from rfl, hcw]
            simp [goElems]
        · intro h0
          have h0' : Registry.get? r reg.name = none := h0
          rw [hg] at h0'
          exact Option.noConfusion h0'
  · -- unregister
    cases hcont : r.contains an with
    | false =>
      have h2 : (unregister an r).2 = r := by
        unfold unregister
        simp [hcont]
      rw [h2]; exact hInv
    | true =>
      have h2 : (unregister an r).2 = r.filter (fun a => !(a.name == an)) := by
        unfold unregister
        simp [hcont]
      rw [h2]
      intro id
      exact le_trans (claimsOn_filter_le now id r _) (hInv id)
  · -- claim
    cases hv : c.Validate with
    | some e =>
      have h2 : (claimOp now an c r).2 = r := by
        unfold claimOp
        rw [hv]
      rw [h2]; exact hInv
    | none =>
      cases hcont : r.contains an with
      | false =>
        have h2 : (claimOp now an c r).2 = r := by
          unfold claimOp
          rw [hv]
          simp [hcont]
        rw [h2]; exact hInv
      | true =>
        cases hf : r.find? (conflictScan now an c) with
        | some o =>
          have h2 : (claimOp now an c r).2 = r := by
            unfold claimOp
            rw [hv]
            simp [hcont, hf]
          rw [h2]; exact hInv
        | none =>
          have h2 : (claimOp now an c r).2 = r.update an (claimF now c) := by
            unfold claimOp
            rw [hv]
            simp [hcont, hf]
          rw [h2]
          intro id
          by_cases hid : id = c.beadID
          · subst hid
            refine claimsOn_update_le_one now c.beadID an (claimF now c) r hWF
              (fun a => agentClaimsOn_claimF_le_one now c a)
              (fun a ha han => ?_)
            refine agentClaimsOn_zero_of_no_conflict now an c a ?_ han
            exact Bool.eq_false_iff.mpr (List.find?_eq_none.mp hf a ha)
          · exact le_trans (claimsOn_update_le now id an (claimF now c)
              (fun a => agentClaimsOn_claimF_le now id c hid a) r) (hInv id)
  · -- release
    cases hg : Registry.get? r an with
    | none =>
      have h2 : (release now an bid r).2 = r := by
        unfold release
        rw [hg]
      rw [h2]; exact hInv
    | some a =>
      cases hany : (goElems a.claimedWork).any (fun x => x.beadID == bid) with
      | false =>
        have h2 : (release now an bid r).2 = r := by
          unfold release
          rw [hg]
          simp [hany]
        rw [h2]; exact hInv
      | true =>
        have h2 : (release now an bid r).2 =
            r.update an (releaseF now bid) := by
          unfold release
          rw [hg]
          simp [hany]
        rw [h2]
        intro id
        exact le_trans (claimsOn_update_le now id an (releaseF now bid)
          (fun x => agentClaimsOn_releaseF_le now now id bid x) r) (hInv id)
  · -- heartbeat
    rcases heartbeat_snd now an r with h | h <;> rw [h]
    · exact hInv
    · intro id
      exact le_trans (claimsOn_update_le now id an (heartbeatF now)
        (fun a => le_of_eq (agentClaimsOn_congr now id _ a rfl)) r) (hInv id)
  · -- add hint
    rcases addFileHint_snd now an fh r with h | h <;> rw [h]
    · exact hInv
    · intro id
      exact le_trans (claimsOn_update_le now id an (addHintF now fh)
        (fun a => le_of_eq (agentClaimsOn_congr now id _ a rfl)) r) (hInv id)
  · -- remove hint
    rcases removeFileHint_snd now an pat r with h | h <;> rw [h]
    · exact hInv
    · intro id
      exact le_trans (claimsOn_update_le now id an (removeHintF now pat)
        (fun a => le_of_eq (agentClaimsOn_congr now id _ a rfl)) r) (hInv id)
  · -- cleanup
    intro id
    rw [claimsOn_cleanup]
    exact hInv id

/-- C1 witness: the preservation bundle at the two-agent registry where
agent a holds the single claim on bead x, unexpired at instant 11. -/
theorem C1_invariant_preservation_witness :
    (Registry.WF [agentWithClaim, agentB] ∧
     ClaimInvariant 11 [agentWithClaim, agentB] ∧
     (11 : Time) ≤ 20 ∧
     (reRegNil.claimedWork = none ∨ reRegNil.claimedWork = some [])) ∧
    (ClaimInvariant 20 [agentWithClaim, agentB] ∧
     ClaimInvariant 11 (register 11 reRegNil [agentWithClaim, agentB]).2 ∧
     ClaimInvariant 11 (unregister "b" [agentWithClaim, agentB]).2 ∧
     ClaimInvariant 11 (claimOp 11 "b" claimYB [agentWithClaim, agentB]).2 ∧
     ClaimInvariant 11 (release 11 "b" "x" [agentWithClaim, agentB]).2 ∧
     ClaimInvariant 11 (heartbeat 11 "b" [agentWithClaim, agentB]).2 ∧
     ClaimInvariant 11 (addFileHint 11 "b" hintOne
       [agentWithClaim, agentB]).2 ∧
     ClaimInvariant 11 (removeFileHint 11 "b" "main.go"
       [agentWithClaim, agentB]).2 ∧
     ClaimInvariant 11 (cleanupExpired 11 [agentWithClaim, agentB])) :=
  ⟨⟨by decide,
    fun id => le_trans (claimsOn_le_total 11 id [agentWithClaim, agentB])
      (by decide),
    by decide, Or.inl rfl⟩,
   C1_invariant_preservation 11 20 [agentWithClaim, agentB] "b" "x"
     "main.go" claimYB hintOne reRegNil (by decide)
     (fun id => le_trans (claimsOn_le_total 11 id [agentWithClaim, agentB])
       (by decide))
     (by decide) (Or.inl rfl)⟩

/-- C1 counterexample: from a state satisfying the invariant (agent b2
holding the single unexpired claim on bead x, reached from the empty
registry by one Register call), a second Register call carrying an
unvalidated claim list for another name succeeds and leaves two
unexpired claims on bead x: Register does not preserve the invariant,
and the violating state is reachable. -/
theorem C1_register_breaks_invariant :
    Registry.WF (register 1 agentInjB []).2 ∧
    ClaimInvariant 1 (register 1 agentInjB []).2 ∧
    (register 1 agentInjA (register 1 agentInjB []).2).1 = none ∧
    claimsOn 1 "x" twoHoldersOfX = 2 ∧
    ¬ ClaimInvariant 1 twoHoldersOfX := by
  refine ⟨by decide, ?_, by decide, by decide, ?_⟩
  · intro id
    exact le_trans (claimsOn_le_total 1 id (register 1 agentInjB []).2)
      (by decide)
  · intro hcl
    exact absurd (hcl "x") (by decide)
